import Mathlib

/-!
Shallow embedding of the job-aggregation core of the Job-Searcher backend:
the provider aggregation pipeline (`gather_jobs_india`), the three
normalizers (`norm_workday`, `norm_netflix`, `normalize_amazon_india`),
the keyword tech-stack inference (`_kw_stack`), the Amazon pagination
loop (`fetch_amazon_india`), and the post-aggregation keyword filter
(`filter_jobs`).

Python dynamic values are embedded as the inductive `Val`; operations
that can raise in Python (attribute access on ill-typed values, string
concatenation with non-strings, pydantic field validation) are embedded
in `Except String`, whose `error` constructor stands for a raised
exception.  Pure, total Python operations become total Lean functions.
-/

set_option maxRecDepth 10000

/-- Python-style case folding restricted to ASCII (the only case the
repository's data exercises): lower-cases every character of the string. -/
def pyLower (s : String) : String := ⟨s.data.map Char.toLower⟩

/-- `charsPrefix n h` is true iff the character list `n` is a prefix of `h`. -/
def charsPrefix : List Char → List Char → Bool
  | [], _ => true
  | _ :: _, [] => false
  | a :: as, b :: bs => a = b && charsPrefix as bs

/-- `charsSub n h` is true iff `n` occurs as a contiguous sublist of `h`;
this is Python's `n in h` substring test on the underlying characters. -/
def charsSub (needle : List Char) : List Char → Bool
  | [] => charsPrefix needle []
  | c :: rest => charsPrefix needle (c :: rest) || charsSub needle rest

/-- Python's substring containment `needle in hay` on strings. -/
def pyInSub (needle hay : String) : Bool := charsSub needle.data hay.data

/-- `strStartsWith s p` is Python's `s.startswith(p)`. -/
def strStartsWith (s p : String) : Bool := charsPrefix p.data s.data

/-- Worker for `pySplit`: walks the characters, accumulating the current
word reversed; whitespace ends a word, empty words are discarded. -/
def pySplitAux : List Char → List Char → List String
  | [], cur => if cur.isEmpty then [] else [String.mk cur.reverse]
  | c :: rest, cur =>
    if c.isWhitespace then
      if cur.isEmpty then pySplitAux rest []
      else String.mk cur.reverse :: pySplitAux rest []
    else pySplitAux rest (c :: cur)

/-- Python's argumentless `str.split()`: split on whitespace runs,
discarding empty pieces. -/
def pySplit (s : String) : List String := pySplitAux s.data []

/-- Worker for `pySplitCh`. -/
def splitChAux (sep : Char) : List Char → List Char → List String
  | [], cur => [String.mk cur.reverse]
  | c :: rest, cur =>
    if c = sep then String.mk cur.reverse :: splitChAux sep rest []
    else splitChAux sep rest (c :: cur)

/-- Python's `str.split(sep)` for a one-character separator (the only form
the source uses: `","` and `":"`); `"".split(sep) == [""]`. -/
def pySplitCh (s : String) (sep : Char) : List String := splitChAux sep s.data []

/-- Python's `str.strip()`: remove leading and trailing whitespace. -/
def pyStrip (s : String) : String :=
  ⟨((s.data.dropWhile Char.isWhitespace).reverse.dropWhile Char.isWhitespace).reverse⟩

/-- Python's `str.capitalize()`: first character upper-cased, the rest
lower-cased (ASCII case mapping). -/
def pyCapitalize (s : String) : String :=
  match s.data with
  | [] => ""
  | c :: cs => ⟨Char.toUpper c :: cs.map Char.toLower⟩

/-- A Python/JSON dynamic value as stored in a raw provider record. -/
inductive Val where
  | none : Val
  | bool : Bool → Val
  | int : Int → Val
  | str : String → Val
  | list : List Val → Val
  | dict : List (String × Val) → Val

/-- Python truthiness of a dynamic value. -/
def Val.truthy : Val → Bool
  | .none => false
  | .bool b => b
  | .int n => !(n == 0)
  | .str s => !(s == "")
  | .list [] => false
  | .list (_ :: _) => true
  | .dict [] => false
  | .dict (_ :: _) => true

/-- A raw provider record: a string-keyed mapping of dynamic values
(`Dict[str, Any]` in the source). -/
abbrev RawRecord := List (String × Val)

/-- `dgetD r k d` is Python's `r.get(k, d)` on a dict. -/
def dgetD (r : RawRecord) (k : String) (d : Val) : Val :=
  match r.lookup k with
  | some v => v
  | Option.none => d

/-- `dget r k` is Python's `r.get(k)` (default `None`). -/
def dget (r : RawRecord) (k : String) : Val := dgetD r k Val.none

/-- Python's short-circuit `a or b` on dynamic values. -/
def pyOrV (a b : Val) : Val := if a.truthy then a else b

mutual
/-- Python's `repr()` of a dynamic value.  String elements keep Python's
single-quote convention; the exact quoting of nested container reprs is
never observable by the embedded code paths (only `str()` of
location-bearing values is, and those are strings in every claim). -/
def pyRepr : Val → String
  | Val.none => "None"
  | Val.bool b => if b then "True" else "False"
  | Val.int n => toString n
  | Val.str s => "\x27" ++ s ++ "\x27"
  | Val.list l => "[" ++ pyReprJoin l ++ "]"
  | Val.dict d => "\x7b" ++ pyReprJoinKV d ++ "\x7d"

/-- Comma-joined reprs of a list of values. -/
def pyReprJoin : List Val → String
  | [] => ""
  | [v] => pyRepr v
  | v :: rest => pyRepr v ++ ", " ++ pyReprJoin rest

/-- Comma-joined `key: value` reprs of a dict's entries. -/
def pyReprJoinKV : List (String × Val) → String
  | [] => ""
  | [(k, v)] => "\x27" ++ k ++ "\x27" ++ ": " ++ pyRepr v
  | (k, v) :: rest =>
      "\x27" ++ k ++ "\x27" ++ ": " ++ pyRepr v ++ ", " ++ pyReprJoinKV rest
end

/-- Python's `str()` of a dynamic value. -/
def pyStr : Val → String
  | Val.str s => s
  | v => pyRepr v

/-- Python `.lower()` on a dynamic value: defined for strings, an
`AttributeError` otherwise. -/
def pyLowerV : Val → Except String String
  | Val.str s => .ok (pyLower s)
  | _ => .error "AttributeError: object has no attribute lower"

/-- pydantic validation of a required `str` field (pydantic v2 performs no
int-to-str coercion, so any non-string raises `ValidationError`); also
models Python string concatenation with a non-string (`TypeError`). -/
def asStrE : Val → Except String String
  | Val.str s => .ok s
  | _ => .error "TypeError/ValidationError: expected str"

/-- pydantic validation of an `Optional[str]` field. -/
def asOptStrE : Val → Except String (Option String)
  | Val.none => .ok Option.none
  | Val.str s => .ok (some s)
  | _ => .error "ValidationError: expected str or None"

/-- Python slicing `v[:n]` as used on description/title text: succeeds on a
string; a non-string value on these code paths always ends in a raised
error (TypeError for unsliceable values, pydantic ValidationError for a
sliceable non-string), which this collapses into one error. -/
def pySliceStr (v : Val) (n : Nat) : Except String String :=
  match v with
  | Val.str s => .ok (s.take n)
  | _ => .error "TypeError: value is not a string"

/-- Optional structured compensation (models.Compensation); the float
bounds are embedded as rationals.  The three normalizers under
verification always pass `None` for it. -/
structure Compensation where
  currency : Option String := Option.none
  min : Option Rat := Option.none
  max : Option Rat := Option.none
  period : Option String := Option.none
  notes : Option String := Option.none
deriving DecidableEq, Repr

/-- The canonical JobPosting entity (models.JobPosting).  pydantic field
validation performed at construction is embedded in the normalizer steps
via `asStrE` / `asOptStrE`. -/
structure JobPosting where
  id : Option String := Option.none
  source : String
  company : String
  title : String
  location : Option String := Option.none
  remote : Option Bool := Option.none
  tech_stack : List String := []
  compensation : Option Compensation := Option.none
  url : Option String := Option.none
  job_id : Option String := Option.none
  description_snippet : Option String := Option.none
deriving DecidableEq, Repr

/-- The fixed keyword vocabulary of `_kw_stack` in normalize_india.py. -/
def kws : List String :=
  ["python", "flask", "fastapi", "django",
   "javascript", "typescript", "react", "Next.js", "node",
   "java", "spring", "kotlin", "go", "golang", "rust", "swift", "swiftui",
   "aws", "gcp", "azure", "docker", "kubernetes", "postgres", "mysql",
   "mongodb", "redis", "graphql"]

/-- Tech-stack inference `_kw_stack(text)`: lower-case the text, keep every
vocabulary keyword whose lower-cased form occurs as a substring, re-casing
the one punctuation-bearing entry to its display form "Next.js". -/
def _kw_stack (text : String) : List String :=
  let blob := pyLower text
  (kws.filter (fun k => pyInSub (pyLower k) blob)).map
    (fun k => if pyLower k == "next.js" then "Next.js" else k)

/-- One iteration of `norm_netflix`'s loop on a single raw record:
`Except.error` is a raised exception, `.ok none` a record skipped by the
India filter, `.ok (some j)` a normalized posting. -/
def nfStep (p : RawRecord) : Except String (Option JobPosting) :=
  match pyOrV (dget p "location") (Val.str "") with
  | Val.str locS =>
    if pyInSub "india" (pyLower locS) = false then .ok Option.none
    else
      match asStrE (dgetD p "name" (Val.str "")) with
      | .error e => .error e
      | .ok name =>
        match asOptStrE (dget p "canonicalPositionUrl") with
        | .error e => .error e
        | .ok url =>
          .ok (some
            { source := "netflix"
              company := "Netflix"
              title := name
              location := some locS
              remote := Option.none
              tech_stack := _kw_stack name
              compensation := Option.none
              url := url
              job_id := some (pyStr (pyOrV (pyOrV (dget p "ats_job_id")
                (dget p "id")) (Val.str "")))
              description_snippet := some (name.take 240) })
  | _ => .error "AttributeError: object has no attribute lower"

/-- `norm_netflix(rows)`: per-record loop, a raised exception aborting the
whole batch (the source has no per-record exception handler). -/
def norm_netflix : List RawRecord → Except String (List JobPosting)
  | [] => .ok []
  | p :: rest =>
    match nfStep p with
    | .error e => .error e
    | .ok o =>
      match norm_netflix rest with
      | .error e => .error e
      | .ok out => .ok (match o with | some j => j :: out | Option.none => out)

/-- Python iteration over a dynamic value (`for l in v`): lists yield their
elements, strings their one-character substrings, dicts their keys. -/
def asIter : Val → Except String (List Val)
  | Val.list l => .ok l
  | Val.str s => .ok (s.data.map (fun c => Val.str (String.singleton c)))
  | Val.dict d => .ok (d.map (fun kv => Val.str kv.1))
  | _ => .error "TypeError: object is not iterable"

/-- The comprehension `[l.get("city","") for l in locations if l.get("city")]`
of `norm_workday`, including the `", ".join` requirement that each collected
city be a string. -/
def wdCities : List Val → Except String (List String)
  | [] => .ok []
  | l :: rest =>
    match l with
    | Val.dict d =>
      if (dget d "city").truthy then
        match asStrE (dgetD d "city" (Val.str "")) with
        | .error e => .error e
        | .ok s =>
          match wdCities rest with
          | .error e => .error e
          | .ok out => .ok (s :: out)
      else wdCities rest
    | _ => .error "AttributeError: object has no attribute get"

/-- The location expression of `norm_workday`:
`r.get("locationsText") or ", ".join([...]) or None`. -/
def wdLocE (r : RawRecord) : Except String Val :=
  let lt := dget r "locationsText"
  if lt.truthy then .ok lt
  else
    match asIter (dgetD r "locations" (Val.list [])) with
    | .error e => .error e
    | .ok ls =>
      match wdCities ls with
      | .error e => .error e
      | .ok cities =>
        let joined := String.intercalate ", " cities
        .ok (if joined == "" then Val.none else Val.str joined)

/-- The external-path handling of `norm_workday`:
`external = r.get("externalPath") or r.get("externalPathTriggered")`, then
if truthy its `startswith("/")` test (an AttributeError on a non-string)
and the absolute-URL rewrite using the tenant hint. -/
def wdExternal (r : RawRecord) (company_hint : String) : Except String Val :=
  let externalV := pyOrV (dget r "externalPath") (dget r "externalPathTriggered")
  if externalV.truthy then
    match externalV with
    | Val.str p =>
      Except.ok (if strStartsWith p "/" then
        Val.str ("https://" ++ company_hint ++ ".myworkdayjobs.com" ++ p)
        else Val.str p)
    | _ => Except.error "AttributeError: object has no attribute startswith"
  else Except.ok externalV

/-- The job-id lookup of `norm_workday`:
`r.get("bulletFields", {}).get("jobId")` raises unless the
bulletFields value is a dict. -/
def wdJobIdV (r : RawRecord) : Except String Val :=
  match dgetD r "bulletFields" (Val.dict []) with
  | Val.dict d => Except.ok (dget d "jobId")
  | _ => Except.error "AttributeError: object has no attribute get"

/-- One iteration of `norm_workday`'s loop on a single raw record. -/
def wdStep (r : RawRecord) (company_hint : String) :
    Except String (Option JobPosting) :=
  match wdLocE r with
  | .error e => .error e
  | .ok loc =>
    if loc.truthy = false then .ok Option.none
    else
      match loc with
      | Val.str locS =>
        if pyInSub "india" (pyLower locS) = false then .ok Option.none
        else
          match wdExternal r company_hint with
          | .error e => .error e
          | .ok urlV =>
            match asStrE (pyOrV (pyOrV (dget r "title") (dget r "title_facet"))
                (Val.str "")) with
            | .error e => .error e
            | .ok title =>
              match asStrE (pyOrV (dgetD r "jobFamily" (Val.str "")) (Val.str "")) with
              | .error e => .error e
              | .ok fam =>
                match wdJobIdV r with
                | .error e => .error e
                | .ok jobIdV =>
                  match asOptStrE urlV with
                  | .error e => .error e
                  | .ok url =>
                    .ok (some
                      { source := "workday"
                        company := pyCapitalize company_hint
                        title := title
                        location := some locS
                        remote := Option.none
                        tech_stack := _kw_stack (title ++ " " ++ fam)
                        compensation := Option.none
                        url := url
                        job_id := some (pyStr (pyOrV (pyOrV jobIdV (dget r "id"))
                          (Val.str "")))
                        description_snippet := some (title.take 240) })
      | _ => .error "AttributeError: object has no attribute lower"

/-- `norm_workday(rows, company_hint)`. -/
def norm_workday (rows : List RawRecord) (company_hint : String) :
    Except String (List JobPosting) :=
  match rows with
  | [] => .ok []
  | r :: rest =>
    match wdStep r company_hint with
    | .error e => .error e
    | .ok o =>
      match norm_workday rest company_hint with
      | .error e => .error e
      | .ok out => .ok (match o with | some j => j :: out | Option.none => out)

/-- One iteration of `normalize_amazon_india`'s loop: every record produces
a posting (there is no locale check here; Amazon rows were pre-filtered in
the fetcher), or an exception on ill-typed fields. -/
def amzStep (r : RawRecord) : Except String JobPosting :=
  match pySliceStr (pyOrV (pyOrV (dget r "description_summary")
    (dget r "description"))
    (pyOrV (pyOrV (dget r "title") (dget r "job_title")) (Val.str ""))) 240 with
  | .error e => .error e
  | .ok snippet =>
    match asStrE (pyOrV (dget r "company_name") (Val.str "Amazon")) with
    | .error e => .error e
    | .ok company =>
      match asStrE (pyOrV (pyOrV (dget r "title") (dget r "job_title"))
          (Val.str "")) with
      | .error e => .error e
      | .ok title =>
        match asOptStrE (pyOrV (pyOrV (dget r "normalized_location")
            (dget r "city_state_or_country")) (dget r "location")) with
        | .error e => .error e
        | .ok location =>
          .ok { source := "amazon"
                company := company
                title := title
                location := location
                remote := Option.none
                tech_stack := _kw_stack
                  (pyStr (pyOrV (pyOrV (dget r "title") (dget r "job_title"))
                    (Val.str "")) ++ " " ++
                   pyStr (dgetD r "basic_qualifications" (Val.str "")) ++ " " ++
                   pyStr (dgetD r "preferred_qualifications" (Val.str "")))
                compensation := Option.none
                url := (if (pyOrV (dget r "job_path") (Val.str "")).truthy then
                    some ("https://www.amazon.jobs" ++
                      pyStr (pyOrV (dget r "job_path") (Val.str "")))
                  else Option.none)
                job_id := some (pyStr (pyOrV (pyOrV (dget r "id")
                  (dget r "job_id")) (Val.str "")))
                description_snippet := some snippet }

/-- `normalize_amazon_india(rows)`. -/
def normalize_amazon_india : List RawRecord → Except String (List JobPosting)
  | [] => .ok []
  | r :: rest =>
    match amzStep r with
    | .error e => .error e
    | .ok j =>
      match normalize_amazon_india rest with
      | .error e => .error e
      | .ok out => .ok (j :: out)

/-- The location fallback chain shared by `_is_india` and `_city_matches`
in providers_amazon.py:
`rec.get("normalized_location") or rec.get("city_state_or_country") or rec.get("location") or ""`. -/
def amzLocVal (rec : RawRecord) : Val :=
  pyOrV (pyOrV (pyOrV (dget rec "normalized_location")
    (dget rec "city_state_or_country")) (dget rec "location")) (Val.str "")

/-- `_is_india(rec)`: any of the recognized India tokens occurs in the
lower-cased `str()` of the location value. -/
def amz_is_india (rec : RawRecord) : Bool :=
  let s := pyLower (pyStr (amzLocVal rec))
  ["india", ", in", " ind", "(in)", " in "].any (fun t => pyInSub t s)

/-- Python truthiness of an optional string (None and "" are falsy). -/
def pyTruthyOptStr : Option String → Bool
  | Option.none => false
  | some s => !(s == "")

/-- `_city_matches(rec, city)`. -/
def amz_city_matches (rec : RawRecord) (city : Option String) : Bool :=
  if !pyTruthyOptStr city then true
  else pyInSub (pyLower (city.getD "")) (pyLower (pyStr (amzLocVal rec)))

/-- The pagination loop of `fetch_amazon_india`, abstracted over the page
source `src` mapping a request offset to that page's rows (`_fetch_page`
with the query parameters fixed).  Arguments: remaining page budget
(initially `max_pages`, the loop is `for page in range(max_pages)`), then
the current page index.  Returns the list of offsets actually requested
and the rows accumulated across the fetched pages. -/
def amzPages (src : Nat → List RawRecord) (page_size : Nat) :
    Nat → Nat → List Nat × List RawRecord
  | 0, _ => ([], [])
  | fuel + 1, page =>
    let offset := page * page_size
    let page_rows := src offset
    if page_rows.isEmpty then ([offset], [])
    else if page_rows.length < page_size then ([offset], page_rows)
    else
      let rest := amzPages src page_size fuel (page + 1)
      (offset :: rest.1, page_rows ++ rest.2)

/-- `fetch_amazon_india`: paginate, then apply the client-side India
locale predicate, then the optional city predicate. -/
def fetch_amazon_india (src : Nat → List RawRecord) (loc_query : Option String)
    (page_size max_pages : Nat) : List RawRecord :=
  let rows := (amzPages src page_size max_pages 0).2
  let rows := rows.filter amz_is_india
  if pyTruthyOptStr loc_query then
    rows.filter (fun r => amz_city_matches r loc_query)
  else rows

/-- A Workday tenant override triple `(host, site, company-hint)`. -/
abbrev WdTriple := String × String × String

/-- Parsing of the `workday` request parameter
(`"tenant:site:hint,tenant:site:hint"`): parts that do not split into
exactly three fields raise ValueError, which is caught and the part
dropped. -/
def parseWdTriples (wd_param : String) : List WdTriple :=
  (pySplitCh wd_param ',').filterMap (fun part =>
    match pySplitCh part ':' with
    | [host, site, hint] => some (host, site, hint)
    | _ => Option.none)

/-- The single built-in Workday tenant used when no override is in
effect. -/
def defaultWorkdayTarget : WdTriple :=
  ("pwc.wd3.myworkdayjobs.com", "Global_Experienced_Careers", "pwc")

/-- The Workday-target selection inside `gather_jobs_india`.  Faithful to
the source: the function reads the request's `workday` query parameter,
then assigns `workday_targets = None` — overwriting its own
`workday_targets` argument — before re-parsing the parameter, and finally
falls back to the built-in default via `workday_targets or [...]`. -/
def selectWorkdayTargets (workday_targets : Option (List WdTriple))
    (wdRequestParam : String) : List WdTriple :=
  let wd_param := pyStrip wdRequestParam
  let overwritten : Option (List WdTriple) := Option.none
  let chosen : Option (List WdTriple) :=
    if !(wd_param == "") then
      (let triples := parseWdTriples wd_param
       if !triples.isEmpty then some triples else overwritten)
    else overwritten
  match chosen with
  | some l => if l.isEmpty then [defaultWorkdayTarget] else l
  | Option.none => [defaultWorkdayTarget]

/-- One concurrent provider task scheduled by `gather_jobs_india`
(`_wrap_fetch_amazon`, `_wrap_fetch_workday` per tenant triple,
`_wrap_fetch_netflix`). -/
inductive ProviderTask where
  | amazon (q : String) (city : Option String)
  | workday (host site hint q : String)
  | netflix
deriving DecidableEq, Repr

/-- The task list `gather_jobs_india` builds, in the order the tasks are
appended (Amazon, then one task per selected Workday triple, then
Netflix). -/
def gatherTasks (fullstack_query : String) (city : Option String)
    (workday_targets : Option (List WdTriple))
    (include_netflix include_amazon : Bool)
    (wdRequestParam : String) : List ProviderTask :=
  (if include_amazon then [ProviderTask.amazon fullstack_query city] else [])
  ++ (selectWorkdayTargets workday_targets wdRequestParam).map
      (fun t => ProviderTask.workday t.1 t.2.1 t.2.2 fullstack_query)
  ++ (if include_netflix then [ProviderTask.netflix] else [])

/-- The fan-in loop over `asyncio.gather(*tasks, return_exceptions=True)`:
an `Except.error` result (a task that raised) is logged and skipped, an
`Except.ok` result is appended (`jobs.extend(res)`). -/
def collectResults : List (Except String (List JobPosting)) → List JobPosting
  | [] => []
  | Except.error _ :: rest => collectResults rest
  | Except.ok res :: rest => res ++ collectResults rest

/-- `gather_jobs_india`, abstracted over `run`, the outcome of awaiting one
provider task (`asyncio.gather` returns the results in task order, with
`return_exceptions=True` turning a raised exception into a value). -/
def gather_jobs_india (run : ProviderTask → Except String (List JobPosting))
    (fullstack_query : String) (city : Option String)
    (workday_targets : Option (List WdTriple))
    (include_netflix include_amazon : Bool)
    (wdRequestParam : String) : List JobPosting :=
  collectResults ((gatherTasks fullstack_query city workday_targets
    include_netflix include_amazon wdRequestParam).map run)

/-- Python's string formatting of an optional string field
(`f"...{j.location}..."`): `None` renders as the literal text "None". -/
def fmtOptStr : Option String → String
  | Option.none => "None"
  | some s => s

/-- The lower-cased match blob `filter_jobs` builds for one posting. -/
def jobBlob (j : JobPosting) : String :=
  pyLower (j.title ++ " " ++ j.company ++ " " ++ fmtOptStr j.location ++ " " ++
    String.intercalate " " j.tech_stack ++ " " ++ (j.description_snippet.getD ""))

/-- The token list of `filter_jobs`: `q.lower().split() if q else []`. -/
def qTokens (q : Option String) : List String :=
  match q with
  | some s => if !(s == "") then pySplit (pyLower s) else []
  | Option.none => []

/-- The inner predicate `ok(j)` of `filter_jobs`. -/
def filterOk (tokens : List String) (loc : Option String) (j : JobPosting) : Bool :=
  let blob := jobBlob j
  let match_q := if !tokens.isEmpty then tokens.any (fun t => pyInSub t blob) else true
  let match_loc :=
    if pyTruthyOptStr loc then pyInSub (pyLower (loc.getD "")) (pyLower (j.location.getD ""))
    else true
  match_q && match_loc

/-- `filter_jobs(jobs, q, loc)`. -/
def filter_jobs (jobs : List JobPosting) (q loc : Option String) : List JobPosting :=
  if !pyTruthyOptStr q && !pyTruthyOptStr loc then jobs
  else jobs.filter (filterOk (qTokens q) loc)

/-- `v` is `None` or a string: a sufficient shape condition under which the
dynamic operations of the normalizers cannot raise on `v`. -/
def isNoneOrStr : Val → Bool
  | Val.none => true
  | Val.str _ => true
  | _ => false

/-- `v` is a string. -/
def isStrV : Val → Bool
  | Val.str _ => true
  | _ => false

/-- Well-shapedness of a single Netflix raw record: every field the
normalizer touches carries a value of the type the code expects. -/
def WTnf (r : RawRecord) : Bool :=
  isNoneOrStr (dget r "location") &&
  isStrV (dgetD r "name" (Val.str "")) &&
  isNoneOrStr (dget r "canonicalPositionUrl")

/-- Well-shapedness of one entry of a Workday `locations` list. -/
def WTwdLoc : Val → Bool
  | Val.dict d => isNoneOrStr (dget d "city")
  | _ => false

/-- Well-shapedness of a single Workday raw record. -/
def WTwd (r : RawRecord) : Bool :=
  isNoneOrStr (dget r "locationsText") &&
  (match dgetD r "locations" (Val.list []) with
   | Val.list ls => ls.all WTwdLoc
   | _ => false) &&
  isStrV (pyOrV (pyOrV (dget r "title") (dget r "title_facet")) (Val.str "")) &&
  isStrV (pyOrV (dgetD r "jobFamily" (Val.str "")) (Val.str "")) &&
  isNoneOrStr (dget r "externalPath") &&
  isNoneOrStr (dget r "externalPathTriggered") &&
  (match dgetD r "bulletFields" (Val.dict []) with
   | Val.dict _ => true
   | _ => false)

/-- Well-shapedness of a single Amazon raw record. -/
def WTamz (r : RawRecord) : Bool :=
  isStrV (pyOrV (pyOrV (dget r "title") (dget r "job_title")) (Val.str "")) &&
  isNoneOrStr (pyOrV (pyOrV (dget r "normalized_location")
    (dget r "city_state_or_country")) (dget r "location")) &&
  isStrV (pyOrV (dget r "company_name") (Val.str "Amazon")) &&
  isStrV (pyOrV (pyOrV (dget r "description_summary") (dget r "description"))
    (pyOrV (pyOrV (dget r "title") (dget r "job_title")) (Val.str "")))

/-! Concrete fixtures used by witnesses and counterexamples. -/

/-- The posting of the spec's filter example: title "Backend Engineer",
tech stack ["python"], located in Pune. -/
def examplePosting : JobPosting :=
  { source := "workday", company := "Acme", title := "Backend Engineer",
    location := some "Pune", tech_stack := ["python"] }

/-- A posting with an absent location field. -/
def noLocPosting : JobPosting :=
  { source := "amazon", company := "Amazon", title := "SDE II" }

/-- A sample normalized Workday posting. -/
def wdSamplePost : JobPosting :=
  { source := "workday", company := "Pwc", title := "Full Stack Engineer",
    location := some "Bengaluru, India" }

/-- A sample normalized Netflix posting. -/
def nfSamplePost : JobPosting :=
  { source := "netflix", company := "Netflix", title := "Senior SWE",
    location := some "Mumbai, India" }

/-- A task-outcome assignment where the Amazon task raises and the Workday
and Netflix tasks succeed. -/
def runPartialFailure : ProviderTask → Except String (List JobPosting)
  | ProviderTask.amazon _ _ => Except.error "FetchError: HTTP 503"
  | ProviderTask.workday _ _ _ _ => Except.ok [wdSamplePost]
  | ProviderTask.netflix => Except.ok [nfSamplePost]

/-- A one-page stub source: `rows` at offset 0, nothing at any other
offset. -/
def amzStub (rows : List RawRecord) : Nat → List RawRecord :=
  fun off => if off == 0 then rows else []

/-- An Amazon raw record located in India. -/
def indiaRow : RawRecord := [("location", Val.str "Chennai, India")]

/-- An Amazon raw record located outside India. -/
def seattleRow : RawRecord := [("location", Val.str "Seattle, WA")]

/-- A Netflix raw record whose location field holds a number instead of a
string. -/
def badNetflixRecord : RawRecord := [("location", Val.int 5)]

/-- A well-formed India-located Netflix raw record. -/
def goodNetflixRecord : RawRecord :=
  [("location", Val.str "Bengaluru, India"), ("name", Val.str "Software Engineer")]

/-- A well-formed India-located Workday raw record with a relative external
path. -/
def goodWorkdayRecord : RawRecord :=
  [("title", Val.str "Full Stack Developer"),
   ("locationsText", Val.str "Bengaluru, India"),
   ("externalPath", Val.str "/job/123")]

/-! Helper lemmas. -/

theorem charsPrefix_refl_append (n t : List Char) : charsPrefix n (n ++ t) = true := by
  induction n with
  | nil => rfl
  | cons c cs ih => simp [charsPrefix, ih]

theorem charsSub_here (n t : List Char) : charsSub n (n ++ t) = true := by
  cases n with
  | nil => cases t <;> simp [charsSub, charsPrefix]
  | cons c cs => simp [charsSub, charsPrefix, charsPrefix_refl_append]

theorem charsSub_append (n a b : List Char) : charsSub n (a ++ n ++ b) = true := by
  induction a with
  | nil => simpa using charsSub_here n b
  | cons c cs ih =>
    simp only [charsSub, List.cons_append, Bool.or_eq_true]
    right
    simpa [List.append_assoc] using ih

theorem collectResults_join (results : List (Except String (List JobPosting))) :
    collectResults results = (results.filterMap (fun res => match res with
      | Except.ok r => some r
      | Except.error _ => Option.none)).flatten := by
  induction results with
  | nil => rfl
  | cons head tail ih => cases head <;> simp [collectResults, ih]

theorem pyTruthyOptStr_eq_false (q : Option String) (h : pyTruthyOptStr q = false) :
    q = Option.none ∨ q = some "" := by
  cases q with
  | none => exact Or.inl rfl
  | some s =>
    right
    simp only [pyTruthyOptStr, Bool.not_eq_false', beq_iff_eq] at h
    rw [h]

theorem qTokens_of_falsy (q : Option String) (h : pyTruthyOptStr q = false) :
    qTokens q = [] := by
  rcases pyTruthyOptStr_eq_false q h with h' | h' <;> subst h' <;> rfl

theorem filterOk_iff (tokens : List String) (loc : Option String) (j : JobPosting) :
    filterOk tokens loc j = true ↔
      ((tokens = [] ∨ ∃ t ∈ tokens, pyInSub t (jobBlob j) = true) ∧
       (∀ l, loc = some l → l ≠ "" →
         pyInSub (pyLower l) (pyLower (j.location.getD "")) = true)) := by
  unfold filterOk
  cases tokens with
  | nil =>
    cases loc with
    | none => simp [pyTruthyOptStr]
    | some l =>
      by_cases hl : l = ""
      · subst hl; simp [pyTruthyOptStr]
      · simp [pyTruthyOptStr, hl]
  | cons t ts =>
    cases loc with
    | none => simp [pyTruthyOptStr, List.any_eq_true]
    | some l =>
      by_cases hl : l = ""
      · subst hl; simp [pyTruthyOptStr, List.any_eq_true]
      · simp [pyTruthyOptStr, hl, List.any_eq_true]

theorem filter_jobs_mem (jobs : List JobPosting) (q loc : Option String)
    (j : JobPosting) :
    j ∈ filter_jobs jobs q loc ↔
      j ∈ jobs ∧
      (qTokens q = [] ∨ ∃ t ∈ qTokens q, pyInSub t (jobBlob j) = true) ∧
      (∀ l, loc = some l → l ≠ "" →
        pyInSub (pyLower l) (pyLower (j.location.getD "")) = true) := by
  unfold filter_jobs
  by_cases hcond : (!pyTruthyOptStr q && !pyTruthyOptStr loc) = true
  · rw [if_pos hcond]
    simp only [Bool.and_eq_true, Bool.not_eq_true'] at hcond
    have htk := qTokens_of_falsy q hcond.1
    constructor
    · intro hmem
      refine ⟨hmem, Or.inl htk, ?_⟩
      intro l hl hne
      rcases pyTruthyOptStr_eq_false loc hcond.2 with h' | h'
      · rw [h'] at hl; cases hl
      · rw [h'] at hl; cases hl; exact absurd rfl hne
    · exact fun h => h.1
  · rw [if_neg hcond]
    rw [List.mem_filter, filterOk_iff]

theorem charsSub_append_left (n a h : List Char) (hs : charsSub n h = true) :
    charsSub n (a ++ h) = true := by
  induction a with
  | nil => simpa using hs
  | cons c cs ih => simp [charsSub, ih]

theorem pyLower_data (s : String) : (pyLower s).data = s.data.map Char.toLower := rfl

/-! Claim theorems. -/

/-- C1 (confirmed): partial-failure isolation of the aggregator.  The
fan-in over `asyncio.gather(..., return_exceptions=True)` keeps exactly the
successful tasks' postings, concatenated in task order, and is a total
function (no exception escapes); in particular, under the default
configuration, when the Amazon task raises and the Workday and Netflix
tasks succeed, the result is exactly the Workday postings followed by the
Netflix postings. -/
theorem gather_partial_failure_isolation :
    (∀ results : List (Except String (List JobPosting)),
      collectResults results = (results.filterMap (fun res => match res with
        | Except.ok r => some r
        | Except.error _ => Option.none)).flatten) ∧
    (∀ (run : ProviderTask → Except String (List JobPosting))
       (q : String) (city : Option String) (e : String)
       (wdJobs nfJobs : List JobPosting),
      run (ProviderTask.amazon q city) = Except.error e →
      run (ProviderTask.workday "pwc.wd3.myworkdayjobs.com"
        "Global_Experienced_Careers" "pwc" q) = Except.ok wdJobs →
      run ProviderTask.netflix = Except.ok nfJobs →
      gather_jobs_india run q city Option.none true true "" = wdJobs ++ nfJobs) := by
  refine ⟨collectResults_join, ?_⟩
  intro run q city e wdJobs nfJobs ha hw hn
  have htasks : gatherTasks q city Option.none true true "" =
      [ProviderTask.amazon q city,
       ProviderTask.workday "pwc.wd3.myworkdayjobs.com"
         "Global_Experienced_Careers" "pwc" q,
       ProviderTask.netflix] := rfl
  unfold gather_jobs_india
  rw [htasks]
  simp [collectResults, ha, hw, hn]

/-- Witness for C1: a concrete outcome assignment where Amazon raises. -/
theorem gather_partial_failure_isolation_witness :
    gather_jobs_india runPartialFailure "Full Stack" Option.none Option.none
      true true "" = [wdSamplePost] ++ [nfSamplePost] :=
  gather_partial_failure_isolation.2 runPartialFailure "Full Stack"
    Option.none "FetchError: HTTP 503" [wdSamplePost] [nfSamplePost] rfl rfl rfl

/-- C5 (confirmed): tech-stack inference membership.  A vocabulary keyword
is included (under its display form, "Next.js" for the punctuation-bearing
entry) iff its lower-cased form occurs as a substring of the lower-cased
text; on the spec's example text the inferred stack is exactly
["react", "aws", "docker"] and does not contain "go". -/
theorem kw_stack_membership :
    (∀ (text k : String), k ∈ kws →
      ((if pyLower k == "next.js" then "Next.js" else k) ∈ _kw_stack text ↔
        pyInSub (pyLower k) (pyLower text) = true)) ∧
    _kw_stack "Senior React Engineer with AWS and Docker experience" =
      ["react", "aws", "docker"] ∧
    "go" ∉ _kw_stack "Senior React Engineer with AWS and Docker experience" := by
  refine ⟨?_, by decide, by decide⟩
  have hnd : (kws.map (fun k =>
      if pyLower k == "next.js" then "Next.js" else k)).Nodup := by decide
  intro text k hk
  constructor
  · intro hmem
    unfold _kw_stack at hmem
    simp only [List.mem_map, List.mem_filter] at hmem
    obtain ⟨k2, ⟨hk2, hsub⟩, hdisp⟩ := hmem
    have hkk : k2 = k := List.inj_on_of_nodup_map hnd hk2 hk hdisp
    rw [hkk] at hsub
    exact hsub
  · intro hsub
    unfold _kw_stack
    simp only [List.mem_map, List.mem_filter]
    exact ⟨k, ⟨hk, hsub⟩, rfl⟩

/-- Witness for C5 at the keyword "react". -/
theorem kw_stack_membership_witness :
    ((if pyLower "react" == "next.js" then "Next.js" else "react") ∈
      _kw_stack "Senior React Engineer with AWS and Docker experience" ↔
      pyInSub (pyLower "react")
        (pyLower "Senior React Engineer with AWS and Docker experience") = true) :=
  kw_stack_membership.1 "Senior React Engineer with AWS and Docker experience"
    "react" (by decide)

/-- C7 (confirmed): keyword-filter OR/AND semantics.  A posting is retained
iff it was in the input, at least one query token occurs in its blob (OR
across tokens, vacuously true when the query yields no tokens), and a
non-empty location filter occurs in its location (AND between the two
dimensions); the spec's example posting matches query "java python" but is
excluded by location filter "Mumbai". -/
theorem filter_jobs_or_and_semantics :
    (∀ (jobs : List JobPosting) (q loc : Option String) (j : JobPosting),
      j ∈ filter_jobs jobs q loc ↔
        j ∈ jobs ∧
        (qTokens q = [] ∨ ∃ t ∈ qTokens q, pyInSub t (jobBlob j) = true) ∧
        (∀ l, loc = some l → l ≠ "" →
          pyInSub (pyLower l) (pyLower (j.location.getD "")) = true)) ∧
    examplePosting ∈ filter_jobs [examplePosting] (some "java python") Option.none ∧
    examplePosting ∉ filter_jobs [examplePosting] (some "java python") (some "Mumbai") :=
  ⟨filter_jobs_mem, by decide, by decide⟩

/-- Witness for C7: the membership characterization applied to the spec's
example posting and query. -/
theorem filter_jobs_or_and_semantics_witness :
    examplePosting ∈ filter_jobs [examplePosting] (some "java python") Option.none ↔
      examplePosting ∈ [examplePosting] ∧
      (qTokens (some "java python") = [] ∨
        ∃ t ∈ qTokens (some "java python"),
          pyInSub t (jobBlob examplePosting) = true) ∧
      (∀ l, (Option.none : Option String) = some l → l ≠ "" →
        pyInSub (pyLower l) (pyLower (examplePosting.location.getD "")) = true) :=
  filter_jobs_or_and_semantics.1 [examplePosting] (some "java python")
    Option.none examplePosting

/-- C9 (code bug): the aggregator assigns `workday_targets = None` right
after reading the request parameter, discarding the explicit
`workday_targets` argument its caller passes.  Evaluated at an explicit
override list and an empty request parameter, the selection yields the
built-in pwc tenant instead of the supplied triple, so the task list
carries the default tenant. -/
theorem workday_targets_param_ignored :
    selectWorkdayTargets
      (some [("acme.wd1.myworkdayjobs.com", "External", "acme")]) "" =
      [defaultWorkdayTarget] ∧
    gatherTasks "Full Stack" Option.none
      (some [("acme.wd1.myworkdayjobs.com", "External", "acme")]) true true "" =
      [ProviderTask.amazon "Full Stack" Option.none,
       ProviderTask.workday "pwc.wd3.myworkdayjobs.com"
         "Global_Experienced_Careers" "pwc" "Full Stack",
       ProviderTask.netflix] ∧
    ¬ [defaultWorkdayTarget] =
      [("acme.wd1.myworkdayjobs.com", "External", "acme")] :=
  ⟨rfl, rfl, by decide⟩

/-- C10 (confirmed): a posting with an absent location is rendered into the
match blob as the literal text "none" (Python string-formats `None` and the
blob is lower-cased), so the query "none" matches every such posting and
`filter_jobs(postings, "none", None)` retains it. -/
theorem filter_jobs_none_location_matches :
    (∀ j : JobPosting, j.location = Option.none →
      pyInSub "none" (jobBlob j) = true) ∧
    (∀ (jobs : List JobPosting) (j : JobPosting), j ∈ jobs →
      j.location = Option.none →
      j ∈ filter_jobs jobs (some "none") Option.none) := by
  have hblob : ∀ j : JobPosting, j.location = Option.none →
      pyInSub "none" (jobBlob j) = true := by
    intro j hloc
    unfold pyInSub jobBlob
    rw [hloc]
    rw [pyLower_data]
    simp only [String.data_append, List.map_append, List.append_assoc, fmtOptStr]
    refine charsSub_append_left _ _ _ (charsSub_append_left _ _ _
      (charsSub_append_left _ _ _ (charsSub_append_left _ _ _ ?_)))
    rw [show ("None".data.map Char.toLower) = "none".data from by decide]
    exact charsSub_here _ _
  refine ⟨hblob, ?_⟩
  intro jobs j hmem hloc
  unfold filter_jobs
  rw [if_neg (by decide)]
  apply List.mem_filter.mpr
  refine ⟨hmem, ?_⟩
  rw [show qTokens (some "none") = ["none"] from rfl]
  have h1 := hblob j hloc
  simp [filterOk, pyTruthyOptStr, h1]

/-- Witness for C10 at a concrete posting with absent location. -/
theorem filter_jobs_none_location_matches_witness :
    noLocPosting ∈ filter_jobs [noLocPosting] (some "none") Option.none :=
  filter_jobs_none_location_matches.2 [noLocPosting] noLocPosting
    (by decide) rfl

theorem amzPages_rows (src : Nat → List RawRecord) (ps : Nat) :
    ∀ (fuel page : Nat),
      (amzPages src ps fuel page).2 =
        ((amzPages src ps fuel page).1.map src).flatten := by
  intro fuel
  induction fuel with
  | zero => intro page; rfl
  | succ f ih =>
    intro page
    simp only [amzPages]
    by_cases h1 : (src (page * ps)).isEmpty
    · simp [h1, List.isEmpty_iff.mp h1]
    · by_cases h2 : (src (page * ps)).length < ps
      · simp [h1, h2]
      · simp [h1, h2, ih (page + 1)]

theorem amzPages_offsets (src : Nat → List RawRecord) (ps : Nat) :
    ∀ (fuel page : Nat), ∃ n, n ≤ fuel ∧
      (amzPages src ps fuel page).1 =
        (List.range n).map (fun i => (page + i) * ps) ∧
      (∀ i, i + 1 < n → ps ≤ (src ((page + i) * ps)).length) := by
  intro fuel
  induction fuel with
  | zero =>
    intro page
    exact ⟨0, le_rfl, rfl, fun i hi => absurd hi (by omega)⟩
  | succ f ih =>
    intro page
    by_cases h1 : (src (page * ps)).isEmpty = true
    · refine ⟨1, by omega, ?_, fun i hi => absurd hi (by omega)⟩
      simp only [amzPages]
      rw [if_pos h1]
      simp [List.range_succ]
    · by_cases h2 : (src (page * ps)).length < ps
      · refine ⟨1, by omega, ?_, fun i hi => absurd hi (by omega)⟩
        simp only [amzPages]
        rw [if_neg h1, if_pos h2]
        simp [List.range_succ]
      · obtain ⟨n2, hn2, hoff2, hcond2⟩ := ih (page + 1)
        refine ⟨n2 + 1, by omega, ?_, ?_⟩
        · simp only [amzPages]
          rw [if_neg h1, if_neg h2]
          show page * ps :: (amzPages src ps f (page + 1)).1 = _
          rw [hoff2, List.range_succ_eq_map, List.map_cons, List.map_map]
          have hfun : ((fun i => (page + i) * ps) ∘ Nat.succ) =
              (fun i => ((page + 1) + i) * ps) := by
            funext i
            show (page + (i + 1)) * ps = ((page + 1) + i) * ps
            congr 1
            omega
          rw [hfun]
          simp
        · intro i hi
          cases i with
          | zero => simpa using Nat.le_of_not_lt h2
          | succ i2 =>
            have hc := hcond2 i2 (by omega)
            have harith : (page + (i2 + 1)) * ps = ((page + 1) + i2) * ps := by
              congr 1
              omega
            rw [harith]
            exact hc

theorem amzPages_two_pages (src : Nat → List RawRecord) (ps fuel : Nat)
    (hlen : (src 0).length = ps) (hps : 0 < ps) (hsnd : src ps = []) :
    amzPages src ps (fuel + 2) 0 = ([0, ps], src 0) := by
  have h0 : ¬ ((src (0 * ps)).isEmpty = true) := by
    rw [Nat.zero_mul, List.isEmpty_iff]
    intro h
    rw [h, List.length_nil] at hlen
    omega
  have hnotlt : ¬ (src (0 * ps)).length < ps := by
    rw [Nat.zero_mul, hlen]
    omega
  show amzPages src ps (fuel + 1 + 1) 0 = _
  simp only [amzPages]
  rw [if_neg h0, if_neg hnotlt]
  have hsndE : (src ((0 + 1) * ps)).isEmpty = true := by
    rw [Nat.zero_add, Nat.one_mul, hsnd]
    rfl
  rw [if_pos hsndE]
  simp

/-- C3 counterexample: a stub source returning exactly `page_size` (= 2)
rows on page 0 and zero rows on page 1, with the rows located outside
India.  The fetcher issues exactly 2 page requests (offsets 0 and
page_size) as claimed, but returns 0 rows, not `page_size` rows: the
post-pagination India locale filter removes them, refuting the claim's
"returns exactly page_size rows". -/
theorem fetch_amazon_pagination_counterexample :
    (amzStub [seattleRow, seattleRow] 0).length = 2 ∧
    amzStub [seattleRow, seattleRow] 2 = [] ∧
    (amzPages (amzStub [seattleRow, seattleRow]) 2 5 0).1 = [0, 2] ∧
    fetch_amazon_india (amzStub [seattleRow, seattleRow]) Option.none 2 5 = [] ∧
    ¬ (fetch_amazon_india (amzStub [seattleRow, seattleRow])
        Option.none 2 5).length = 2 :=
  ⟨rfl, rfl, rfl, rfl, by decide⟩

/-- C3 (corrected): the pagination loop requests pages strictly
sequentially at offsets 0, page_size, 2·page_size, ..., issues at most
`max_pages` requests, stops only after a page that was empty or shorter
than `page_size` (every non-final fetched page has at least `page_size`
rows), and accumulates exactly the concatenation of the fetched pages'
rows; the accumulated rows are then India-filtered before being returned,
so for a stub source returning exactly `page_size` India-located rows on
page 0 and none on page 1, the fetcher issues exactly 2 page requests and
returns exactly those `page_size` rows. -/
theorem fetch_amazon_pagination_amended :
    (∀ (src : Nat → List RawRecord) (ps max_pages : Nat),
      ∃ n, n ≤ max_pages ∧
        (amzPages src ps max_pages 0).1 =
          (List.range n).map (fun i => i * ps) ∧
        (amzPages src ps max_pages 0).2 =
          ((amzPages src ps max_pages 0).1.map src).flatten ∧
        (∀ i, i + 1 < n → ps ≤ (src (i * ps)).length)) ∧
    (∀ (rows : List RawRecord) (ps : Nat), 0 < ps → rows.length = ps →
      (∀ r ∈ rows, amz_is_india r = true) →
      (amzPages (amzStub rows) ps 5 0).1 = [0, ps] ∧
      fetch_amazon_india (amzStub rows) Option.none ps 5 = rows) := by
  constructor
  · intro src ps mp
    obtain ⟨n, hn, hoff, hcond⟩ := amzPages_offsets src ps mp 0
    refine ⟨n, hn, ?_, amzPages_rows src ps mp 0, ?_⟩
    · simpa using hoff
    · intro i hi
      simpa using hcond i hi
  · intro rows ps hps hlen hind
    have hstub0 : amzStub rows 0 = rows := rfl
    have hstubps : amzStub rows ps = [] := by
      unfold amzStub
      simp [hps.ne']
    have h2 := amzPages_two_pages (amzStub rows) ps 3
      (by rw [hstub0]; exact hlen) hps hstubps
    rw [hstub0] at h2
    have h5 : amzPages (amzStub rows) ps 5 0 = ([0, ps], rows) := h2
    refine ⟨by rw [h5], ?_⟩
    have hfetch : fetch_amazon_india (amzStub rows) Option.none ps 5 =
        (amzPages (amzStub rows) ps 5 0).2.filter amz_is_india := rfl
    rw [hfetch, h5]
    exact List.filter_eq_self.mpr hind

/-- Witness for the amended C3 at page_size 1 and a concrete India row. -/
theorem fetch_amazon_pagination_amended_witness :
    (amzPages (amzStub [indiaRow]) 1 5 0).1 = [0, 1] ∧
    fetch_amazon_india (amzStub [indiaRow]) Option.none 1 5 = [indiaRow] :=
  fetch_amazon_pagination_amended.2 [indiaRow] 1 (by decide) rfl (by decide)

theorem isNoneOrStr_cases (v : Val) (h : isNoneOrStr v = true) :
    v = Val.none ∨ ∃ s, v = Val.str s := by
  cases v with
  | none => exact Or.inl rfl
  | str s => exact Or.inr ⟨s, rfl⟩
  | bool b => exact absurd h (by simp [isNoneOrStr])
  | int n => exact absurd h (by simp [isNoneOrStr])
  | list l => exact absurd h (by simp [isNoneOrStr])
  | dict d => exact absurd h (by simp [isNoneOrStr])

theorem isStrV_cases (v : Val) (h : isStrV v = true) : ∃ s, v = Val.str s := by
  cases v with
  | str s => exact ⟨s, rfl⟩
  | none => exact absurd h (by simp [isStrV])
  | bool b => exact absurd h (by simp [isStrV])
  | int n => exact absurd h (by simp [isStrV])
  | list l => exact absurd h (by simp [isStrV])
  | dict d => exact absurd h (by simp [isStrV])

theorem pyOrV_default_str (v : Val) (d : String) (h : isNoneOrStr v = true) :
    ∃ s, pyOrV v (Val.str d) = Val.str s := by
  rcases isNoneOrStr_cases v h with h' | ⟨s, h'⟩ <;> subst h'
  · exact ⟨d, rfl⟩
  · by_cases hs : s = ""
    · subst hs
      exact ⟨d, rfl⟩
    · refine ⟨s, ?_⟩
      unfold pyOrV
      rw [if_pos (by simp [Val.truthy, hs])]

theorem asOptStrE_of_noneOrStr (v : Val) (h : isNoneOrStr v = true) :
    ∃ u, asOptStrE v = Except.ok u ∧ (∀ s, v = Val.str s → u = some s) := by
  rcases isNoneOrStr_cases v h with h' | ⟨s, h'⟩ <;> subst h'
  · exact ⟨Option.none, rfl, fun s hs => Val.noConfusion hs⟩
  · exact ⟨some s, rfl, fun s2 hs => by cases hs; rfl⟩

theorem nfLoc_wt (p : RawRecord) (h : isNoneOrStr (dget p "location") = true) :
    ∃ s, pyOrV (dget p "location") (Val.str "") = Val.str s := by
  exact pyOrV_default_str _ "" h

theorem nfStep_skip (p : RawRecord) (s : String)
    (hloc : pyOrV (dget p "location") (Val.str "") = Val.str s)
    (hnot : pyInSub "india" (pyLower s) = false) :
    nfStep p = Except.ok Option.none := by
  unfold nfStep
  rw [hloc]
  simp [hnot]

theorem nfStep_eval (p : RawRecord) (s : String) (hwt : WTnf p = true)
    (hloc : pyOrV (dget p "location") (Val.str "") = Val.str s)
    (hin : pyInSub "india" (pyLower s) = true) :
    ∃ j, nfStep p = Except.ok (some j) ∧ j.source = "netflix" ∧
      j.company = "Netflix" ∧ j.location = some s := by
  unfold WTnf at hwt
  simp only [Bool.and_eq_true] at hwt
  obtain ⟨⟨h1, h2⟩, h3⟩ := hwt
  obtain ⟨nm, hnm⟩ := isStrV_cases _ h2
  obtain ⟨u, hu, _⟩ := asOptStrE_of_noneOrStr _ h3
  unfold nfStep
  rw [hloc]
  simp only [hin, Bool.true_eq_false, if_false, hnm, asStrE, hu]
  exact ⟨_, rfl, rfl, rfl, rfl⟩

theorem nfStep_wt (p : RawRecord) (hwt : WTnf p = true) :
    ∃ o, nfStep p = Except.ok o := by
  have h1 : isNoneOrStr (dget p "location") = true := by
    unfold WTnf at hwt
    simp only [Bool.and_eq_true] at hwt
    exact hwt.1.1
  obtain ⟨s, hloc⟩ := nfLoc_wt p h1
  by_cases hin : pyInSub "india" (pyLower s) = true
  · obtain ⟨j, hj, _⟩ := nfStep_eval p s hwt hloc hin
    exact ⟨some j, hj⟩
  · exact ⟨Option.none, nfStep_skip p s hloc (by simpa using hin)⟩

theorem norm_netflix_singleton (r : RawRecord) :
    norm_netflix [r] = (match nfStep r with
      | Except.error e => Except.error e
      | Except.ok Option.none => Except.ok []
      | Except.ok (some j) => Except.ok [j]) := by
  unfold norm_netflix
  cases nfStep r with
  | error e => rfl
  | ok o => cases o <;> rfl

theorem norm_workday_singleton (r : RawRecord) (hint : String) :
    norm_workday [r] hint = (match wdStep r hint with
      | Except.error e => Except.error e
      | Except.ok Option.none => Except.ok []
      | Except.ok (some j) => Except.ok [j]) := by
  unfold norm_workday
  cases wdStep r hint with
  | error e => rfl
  | ok o => cases o <;> rfl

theorem pyOrV_noneOrStr (a b : Val) (ha : isNoneOrStr a = true)
    (hb : isNoneOrStr b = true) : isNoneOrStr (pyOrV a b) = true := by
  unfold pyOrV
  by_cases ht : a.truthy = true
  · rw [if_pos ht]; exact ha
  · rw [if_neg ht]; exact hb

theorem strStartsWith_slash_ne (p : String) (h : strStartsWith p "/" = true) :
    p ≠ "" := by
  intro hp
  subst hp
  exact Bool.noConfusion h

theorem WTwd_parts (r : RawRecord) (h : WTwd r = true) :
    isNoneOrStr (dget r "locationsText") = true ∧
    (∃ ls, dgetD r "locations" (Val.list []) = Val.list ls ∧
      ls.all WTwdLoc = true) ∧
    isStrV (pyOrV (pyOrV (dget r "title") (dget r "title_facet"))
      (Val.str "")) = true ∧
    isStrV (pyOrV (dgetD r "jobFamily" (Val.str "")) (Val.str "")) = true ∧
    isNoneOrStr (dget r "externalPath") = true ∧
    isNoneOrStr (dget r "externalPathTriggered") = true ∧
    (∃ d, dgetD r "bulletFields" (Val.dict []) = Val.dict d) := by
  unfold WTwd at h
  simp only [Bool.and_eq_true] at h
  obtain ⟨⟨⟨⟨⟨⟨h1, h2⟩, h3⟩, h4⟩, h5⟩, h6⟩, h7⟩ := h
  refine ⟨h1, ?_, h3, h4, h5, h6, ?_⟩
  · cases hm : dgetD r "locations" (Val.list []) with
    | list ls => rw [hm] at h2; exact ⟨ls, rfl, h2⟩
    | none => rw [hm] at h2; exact Bool.noConfusion h2
    | bool b => rw [hm] at h2; exact Bool.noConfusion h2
    | int n => rw [hm] at h2; exact Bool.noConfusion h2
    | str s => rw [hm] at h2; exact Bool.noConfusion h2
    | dict d => rw [hm] at h2; exact Bool.noConfusion h2
  · cases hm : dgetD r "bulletFields" (Val.dict []) with
    | dict d => exact ⟨d, rfl⟩
    | none => rw [hm] at h7; exact Bool.noConfusion h7
    | bool b => rw [hm] at h7; exact Bool.noConfusion h7
    | int n => rw [hm] at h7; exact Bool.noConfusion h7
    | str s => rw [hm] at h7; exact Bool.noConfusion h7
    | list l => rw [hm] at h7; exact Bool.noConfusion h7

theorem wdCities_wt : ∀ ls : List Val, ls.all WTwdLoc = true →
    ∃ cs, wdCities ls = Except.ok cs := by
  intro ls
  induction ls with
  | nil => intro _; exact ⟨[], rfl⟩
  | cons l rest ih =>
    intro h
    rw [List.all_cons, Bool.and_eq_true] at h
    obtain ⟨hl, hrest⟩ := h
    obtain ⟨cs2, hcs2⟩ := ih hrest
    cases l with
    | dict d =>
      simp only [wdCities]
      by_cases ht : (dget d "city").truthy = true
      · have hns : isNoneOrStr (dget d "city") = true := by
          simpa [WTwdLoc] using hl
        rcases isNoneOrStr_cases _ hns with h0 | ⟨s, h0⟩
        · rw [h0] at ht; exact Bool.noConfusion ht
        · have hdd : dgetD d "city" (Val.str "") = Val.str s := by
            unfold dget at h0
            unfold dgetD at h0 ⊢
            cases hk : List.lookup "city" d with
            | none => rw [hk] at h0; exact Val.noConfusion h0
            | some v => rw [hk] at h0; exact h0
          rw [if_pos ht, hdd]
          simp only [asStrE]
          rw [hcs2]
          exact ⟨s :: cs2, rfl⟩
      · rw [if_neg ht]
        exact ⟨cs2, hcs2⟩
    | none => exact absurd hl (by simp [WTwdLoc])
    | bool b => exact absurd hl (by simp [WTwdLoc])
    | int n => exact absurd hl (by simp [WTwdLoc])
    | str s => exact absurd hl (by simp [WTwdLoc])
    | list l2 => exact absurd hl (by simp [WTwdLoc])

theorem wdLocE_wt (r : RawRecord) (h : WTwd r = true) :
    wdLocE r = Except.ok Val.none ∨
      ∃ s, s ≠ "" ∧ wdLocE r = Except.ok (Val.str s) := by
  obtain ⟨h1, ⟨ls, hls, hall⟩, _⟩ := WTwd_parts r h
  by_cases ht : (dget r "locationsText").truthy = true
  · rcases isNoneOrStr_cases _ h1 with h0 | ⟨s, h0⟩
    · rw [h0] at ht; exact Bool.noConfusion ht
    · right
      refine ⟨s, ?_, ?_⟩
      · intro hs
        rw [h0, hs] at ht
        exact Bool.noConfusion ht
      · unfold wdLocE
        rw [if_pos ht, h0]
  · unfold wdLocE
    rw [if_neg ht, hls]
    simp only [asIter]
    obtain ⟨cs, hcs⟩ := wdCities_wt ls hall
    rw [hcs]
    by_cases hj : (String.intercalate ", " cs == "") = true
    · left
      show Except.ok (if (String.intercalate ", " cs == "") = true then Val.none
        else Val.str (String.intercalate ", " cs)) = Except.ok Val.none
      rw [if_pos hj]
    · right
      refine ⟨String.intercalate ", " cs, by simpa using hj, ?_⟩
      show Except.ok (if (String.intercalate ", " cs == "") = true then Val.none
        else Val.str (String.intercalate ", " cs)) =
        Except.ok (Val.str (String.intercalate ", " cs))
      rw [if_neg hj]

theorem wdExternal_wt (r : RawRecord) (hint : String)
    (h1 : isNoneOrStr (dget r "externalPath") = true)
    (h2 : isNoneOrStr (dget r "externalPathTriggered") = true) :
    ∃ v, wdExternal r hint = Except.ok v ∧ isNoneOrStr v = true ∧
      (∀ p, dget r "externalPath" = Val.str p → strStartsWith p "/" = true →
        v = Val.str ("https://" ++ hint ++ ".myworkdayjobs.com" ++ p)) := by
  have hE : isNoneOrStr (pyOrV (dget r "externalPath")
      (dget r "externalPathTriggered")) = true := pyOrV_noneOrStr _ _ h1 h2
  by_cases ht : (pyOrV (dget r "externalPath")
      (dget r "externalPathTriggered")).truthy = true
  · rcases isNoneOrStr_cases _ hE with h0 | ⟨p0, h0⟩
    · rw [h0] at ht; exact Bool.noConfusion ht
    · unfold wdExternal
      rw [if_pos ht, h0]
      refine ⟨(if strStartsWith p0 "/" then
        Val.str ("https://" ++ hint ++ ".myworkdayjobs.com" ++ p0)
        else Val.str p0), rfl, ?_, ?_⟩
      · by_cases hsw : strStartsWith p0 "/" = true
        · rw [if_pos hsw]; rfl
        · rw [if_neg hsw]; rfl
      · intro p hp hsw
        have hpne : p ≠ "" := strStartsWith_slash_ne p hsw
        have hep : pyOrV (dget r "externalPath")
            (dget r "externalPathTriggered") = Val.str p := by
          unfold pyOrV
          rw [hp, if_pos (by simp [Val.truthy, hpne])]
        rw [hep] at h0
        cases h0
        rw [if_pos hsw]
  · unfold wdExternal
    rw [if_neg ht]
    refine ⟨_, rfl, hE, ?_⟩
    intro p hp hsw
    exfalso
    apply ht
    have hpne : p ≠ "" := strStartsWith_slash_ne p hsw
    unfold pyOrV
    rw [hp, if_pos (by simp [Val.truthy, hpne])]
    simp [Val.truthy, hpne]

theorem wdStep_skip_none (r : RawRecord) (hint : String)
    (h : wdLocE r = Except.ok Val.none) :
    wdStep r hint = Except.ok Option.none := by
  unfold wdStep
  rw [h]
  rfl

theorem wdStep_skip_str (r : RawRecord) (hint s : String)
    (h : wdLocE r = Except.ok (Val.str s))
    (hnot : pyInSub "india" (pyLower s) = false) :
    wdStep r hint = Except.ok Option.none := by
  unfold wdStep
  rw [h]
  by_cases hs : s = ""
  · subst hs
    rfl
  · have ht : (Val.str s).truthy = true := by simp [Val.truthy, hs]
    simp [ht, hnot]

theorem wdStep_eval (r : RawRecord) (hint s : String) (hwt : WTwd r = true)
    (hloc : wdLocE r = Except.ok (Val.str s)) (hs : s ≠ "")
    (hin : pyInSub "india" (pyLower s) = true) :
    ∃ j, wdStep r hint = Except.ok (some j) ∧ j.source = "workday" ∧
      j.company = pyCapitalize hint ∧ j.location = some s ∧
      (∀ p, dget r "externalPath" = Val.str p → strStartsWith p "/" = true →
        j.url = some ("https://" ++ hint ++ ".myworkdayjobs.com" ++ p)) := by
  obtain ⟨h1, ⟨ls, hls, hall⟩, h3, h4, h5, h6, ⟨bd, hbd⟩⟩ := WTwd_parts r hwt
  obtain ⟨v, hv, hvs, hvspec⟩ := wdExternal_wt r hint h5 h6
  obtain ⟨t, htt⟩ := isStrV_cases _ h3
  obtain ⟨f, hff⟩ := isStrV_cases _ h4
  obtain ⟨u, hu, huspec⟩ := asOptStrE_of_noneOrStr v hvs
  have hji : wdJobIdV r = Except.ok (dget bd "jobId") := by
    unfold wdJobIdV
    rw [hbd]
  have htr : (Val.str s).truthy = true := by simp [Val.truthy, hs]
  unfold wdStep
  rw [hloc, htt, hff]
  simp only [htr, Bool.true_eq_false, if_false, hin, hv, asStrE, hji, hu]
  refine ⟨_, rfl, rfl, rfl, rfl, ?_⟩
  intro p hp hsw
  exact huspec _ (hvspec p hp hsw)

theorem wdStep_wt (r : RawRecord) (hint : String) (hwt : WTwd r = true) :
    ∃ o, wdStep r hint = Except.ok o := by
  rcases wdLocE_wt r hwt with hl | ⟨s, hs, hl⟩
  · exact ⟨Option.none, wdStep_skip_none r hint hl⟩
  · by_cases hin : pyInSub "india" (pyLower s) = true
    · obtain ⟨j, hj, _⟩ := wdStep_eval r hint s hwt hl hs hin
      exact ⟨some j, hj⟩
    · exact ⟨Option.none, wdStep_skip_str r hint s hl (by simpa using hin)⟩

theorem amzStep_wt (r : RawRecord) (hwt : WTamz r = true) :
    ∃ j, amzStep r = Except.ok j := by
  unfold WTamz at hwt
  simp only [Bool.and_eq_true] at hwt
  obtain ⟨⟨⟨h1, h2⟩, h3⟩, h4⟩ := hwt
  obtain ⟨t, htt⟩ := isStrV_cases _ h1
  obtain ⟨c, hc⟩ := isStrV_cases _ h3
  obtain ⟨d0, hd0⟩ := isStrV_cases _ h4
  obtain ⟨u, hu, _⟩ := asOptStrE_of_noneOrStr _ h2
  have hd0s : pyOrV (pyOrV (dget r "description_summary") (dget r "description"))
      (Val.str t) = Val.str d0 := by
    rw [← htt]
    exact hd0
  unfold amzStep
  simp only [htt, hc, hd0s, pySliceStr, asStrE, hu]
  exact ⟨_, rfl⟩

theorem asStrE_or_default_ne (v : Val) (d c : String) (hd : d ≠ "")
    (h : asStrE (pyOrV v (Val.str d)) = Except.ok c) : c ≠ "" := by
  unfold pyOrV at h
  by_cases ht : v.truthy = true
  · rw [if_pos ht] at h
    cases v with
    | str s =>
      simp only [asStrE] at h
      injection h with h2
      subst h2
      simpa [Val.truthy] using ht
    | none => exact absurd h (by simp [asStrE])
    | bool b => exact absurd h (by simp [asStrE])
    | int n => exact absurd h (by simp [asStrE])
    | list l => exact absurd h (by simp [asStrE])
    | dict d2 => exact absurd h (by simp [asStrE])
  · rw [if_neg ht] at h
    simp only [asStrE] at h
    injection h with h2
    subst h2
    exact hd

theorem pyCapitalize_ne_empty (s : String) (h : s ≠ "") : pyCapitalize s ≠ "" := by
  intro hc
  apply h
  cases s with
  | mk l =>
    cases l with
    | nil => rfl
    | cons c cs =>
      unfold pyCapitalize at hc
      simp only [] at hc
      have := congrArg String.data hc
      simp at this

theorem nfStep_fields (p : RawRecord) (j : JobPosting)
    (h : nfStep p = Except.ok (some j)) :
    j.source = "netflix" ∧ j.company = "Netflix" := by
  unfold nfStep at h
  repeat' split at h
  all_goals first
    | exact Except.noConfusion h
    | (simp only [Except.ok.injEq, Option.some.injEq] at h
       subst h
       exact ⟨rfl, rfl⟩)
    | exact absurd h (by simp)

theorem wdStep_fields (r : RawRecord) (hint : String) (j : JobPosting)
    (h : wdStep r hint = Except.ok (some j)) :
    j.source = "workday" ∧ j.company = pyCapitalize hint := by
  unfold wdStep at h
  repeat' split at h
  all_goals first
    | exact Except.noConfusion h
    | (simp only [Except.ok.injEq, Option.some.injEq] at h
       subst h
       exact ⟨rfl, rfl⟩)
    | exact absurd h (by simp)

theorem amzStep_fields (r : RawRecord) (j : JobPosting)
    (h : amzStep r = Except.ok j) :
    j.source = "amazon" ∧ j.company ≠ "" := by
  unfold amzStep at h
  repeat' split at h
  all_goals first
    | exact Except.noConfusion h
    | (simp only [Except.ok.injEq] at h
       subst h
       exact ⟨rfl, asStrE_or_default_ne _ "Amazon" _ (by decide) (by assumption)⟩)

theorem norm_netflix_wt (rows : List RawRecord)
    (h : ∀ r ∈ rows, WTnf r = true) :
    ∃ out, norm_netflix rows = Except.ok out := by
  induction rows with
  | nil => exact ⟨[], rfl⟩
  | cons p rest ih =>
    obtain ⟨o, ho⟩ := nfStep_wt p (h p (List.mem_cons_self p rest))
    obtain ⟨out2, hout2⟩ := ih (fun r hr => h r (List.mem_cons_of_mem p hr))
    unfold norm_netflix
    rw [ho, hout2]
    exact ⟨_, rfl⟩

theorem norm_workday_wt (rows : List RawRecord) (hint : String)
    (h : ∀ r ∈ rows, WTwd r = true) :
    ∃ out, norm_workday rows hint = Except.ok out := by
  induction rows with
  | nil => exact ⟨[], rfl⟩
  | cons p rest ih =>
    obtain ⟨o, ho⟩ := wdStep_wt p hint (h p (List.mem_cons_self p rest))
    obtain ⟨out2, hout2⟩ := ih (fun r hr => h r (List.mem_cons_of_mem p hr))
    unfold norm_workday
    rw [ho, hout2]
    exact ⟨_, rfl⟩

theorem normalize_amazon_wt (rows : List RawRecord)
    (h : ∀ r ∈ rows, WTamz r = true) :
    ∃ out, normalize_amazon_india rows = Except.ok out := by
  induction rows with
  | nil => exact ⟨[], rfl⟩
  | cons p rest ih =>
    obtain ⟨j, hj⟩ := amzStep_wt p (h p (List.mem_cons_self p rest))
    obtain ⟨out2, hout2⟩ := ih (fun r hr => h r (List.mem_cons_of_mem p hr))
    unfold normalize_amazon_india
    rw [hj, hout2]
    exact ⟨_, rfl⟩

theorem norm_netflix_fields (rows : List RawRecord) (out : List JobPosting)
    (h : norm_netflix rows = Except.ok out) :
    ∀ j ∈ out, j.source = "netflix" ∧ j.company = "Netflix" := by
  induction rows generalizing out with
  | nil =>
    simp only [norm_netflix, Except.ok.injEq] at h
    subst h
    intro j hj
    cases hj
  | cons p rest ih =>
    unfold norm_netflix at h
    cases hp : nfStep p with
    | error e => rw [hp] at h; exact Except.noConfusion h
    | ok o =>
      rw [hp] at h
      cases hrest : norm_netflix rest with
      | error e => rw [hrest] at h; exact Except.noConfusion h
      | ok out2 =>
        rw [hrest] at h
        simp only [Except.ok.injEq] at h
        subst h
        intro j hj
        cases o with
        | none => exact ih out2 hrest j hj
        | some j0 =>
          rcases List.mem_cons.mp hj with hj0 | hj2
          · subst hj0
            exact nfStep_fields p j hp
          · exact ih out2 hrest j hj2

theorem norm_workday_fields (rows : List RawRecord) (hint : String)
    (out : List JobPosting) (h : norm_workday rows hint = Except.ok out) :
    ∀ j ∈ out, j.source = "workday" ∧ j.company = pyCapitalize hint := by
  induction rows generalizing out with
  | nil =>
    simp only [norm_workday, Except.ok.injEq] at h
    subst h
    intro j hj
    cases hj
  | cons p rest ih =>
    unfold norm_workday at h
    cases hp : wdStep p hint with
    | error e => rw [hp] at h; exact Except.noConfusion h
    | ok o =>
      rw [hp] at h
      cases hrest : norm_workday rest hint with
      | error e => rw [hrest] at h; exact Except.noConfusion h
      | ok out2 =>
        rw [hrest] at h
        simp only [Except.ok.injEq] at h
        subst h
        intro j hj
        cases o with
        | none => exact ih out2 hrest j hj
        | some j0 =>
          rcases List.mem_cons.mp hj with hj0 | hj2
          · subst hj0
            exact wdStep_fields p hint j hp
          · exact ih out2 hrest j hj2

theorem normalize_amazon_fields (rows : List RawRecord)
    (out : List JobPosting) (h : normalize_amazon_india rows = Except.ok out) :
    ∀ j ∈ out, j.source = "amazon" ∧ j.company ≠ "" := by
  induction rows generalizing out with
  | nil =>
    simp only [normalize_amazon_india, Except.ok.injEq] at h
    subst h
    intro j hj
    cases hj
  | cons p rest ih =>
    unfold normalize_amazon_india at h
    cases hp : amzStep p with
    | error e => rw [hp] at h; exact Except.noConfusion h
    | ok j0 =>
      rw [hp] at h
      cases hrest : normalize_amazon_india rest with
      | error e => rw [hrest] at h; exact Except.noConfusion h
      | ok out2 =>
        rw [hrest] at h
        simp only [Except.ok.injEq] at h
        subst h
        intro j hj
        rcases List.mem_cons.mp hj with hj0 | hj2
        · subst hj0
          exact amzStep_fields p j hp
        · exact ih out2 hrest j hj2

theorem norm_netflix_cons (p : RawRecord) (rest : List RawRecord) :
    norm_netflix (p :: rest) = (match nfStep p with
      | Except.error e => Except.error e
      | Except.ok o => (match norm_netflix rest with
        | Except.error e => Except.error e
        | Except.ok out => Except.ok (match o with
          | some j => j :: out
          | Option.none => out))) := rfl

theorem norm_workday_cons (p : RawRecord) (rest : List RawRecord)
    (hint : String) :
    norm_workday (p :: rest) hint = (match wdStep p hint with
      | Except.error e => Except.error e
      | Except.ok o => (match norm_workday rest hint with
        | Except.error e => Except.error e
        | Except.ok out => Except.ok (match o with
          | some j => j :: out
          | Option.none => out))) := rfl

theorem normalize_amazon_cons (p : RawRecord) (rest : List RawRecord) :
    normalize_amazon_india (p :: rest) = (match amzStep p with
      | Except.error e => Except.error e
      | Except.ok j => (match normalize_amazon_india rest with
        | Except.error e => Except.error e
        | Except.ok out => Except.ok (j :: out))) := rfl

theorem norm_netflix_insert_empty (xs ys : List RawRecord) :
    norm_netflix (xs ++ ([] : RawRecord) :: ys) = norm_netflix (xs ++ ys) := by
  induction xs with
  | nil =>
    show norm_netflix (([] : RawRecord) :: ys) = norm_netflix ys
    rw [norm_netflix_cons]
    rw [show nfStep ([] : RawRecord) = Except.ok Option.none from rfl]
    cases hys : norm_netflix ys <;> rfl
  | cons p rest ih =>
    show norm_netflix (p :: (rest ++ ([] : RawRecord) :: ys)) =
      norm_netflix (p :: (rest ++ ys))
    rw [norm_netflix_cons, norm_netflix_cons p (rest ++ ys), ih]

theorem norm_workday_insert_empty (xs ys : List RawRecord) (hint : String) :
    norm_workday (xs ++ ([] : RawRecord) :: ys) hint =
      norm_workday (xs ++ ys) hint := by
  induction xs with
  | nil =>
    show norm_workday (([] : RawRecord) :: ys) hint = norm_workday ys hint
    rw [norm_workday_cons]
    rw [show wdStep ([] : RawRecord) hint = Except.ok Option.none from rfl]
    cases hys : norm_workday ys hint <;> rfl
  | cons p rest ih =>
    show norm_workday (p :: (rest ++ ([] : RawRecord) :: ys)) hint =
      norm_workday (p :: (rest ++ ys)) hint
    rw [norm_workday_cons, norm_workday_cons p (rest ++ ys), ih]

theorem normalize_amazon_insert_empty (xs ys : List RawRecord)
    (a b : List JobPosting)
    (hx : normalize_amazon_india xs = Except.ok a)
    (hy : normalize_amazon_india ys = Except.ok b) :
    normalize_amazon_india (xs ++ ([] : RawRecord) :: ys) =
      Except.ok (a ++ ({ source := "amazon", company := "Amazon", title := "",
                         job_id := some "",
                         description_snippet := some "" } : JobPosting) :: b) := by
  have hempty : amzStep ([] : RawRecord) =
      Except.ok ({ source := "amazon", company := "Amazon", title := "",
                   job_id := some "",
                   description_snippet := some "" } : JobPosting) := rfl
  induction xs generalizing a with
  | nil =>
    simp only [normalize_amazon_india, Except.ok.injEq] at hx
    subst hx
    show normalize_amazon_india (([] : RawRecord) :: ys) = _
    rw [normalize_amazon_cons, hempty, hy]
    rfl
  | cons p rest ih =>
    unfold normalize_amazon_india at hx
    cases hp : amzStep p with
    | error e => rw [hp] at hx; exact Except.noConfusion hx
    | ok j0 =>
      rw [hp] at hx
      cases hrest : normalize_amazon_india rest with
      | error e => rw [hrest] at hx; exact Except.noConfusion hx
      | ok a2 =>
        rw [hrest] at hx
        simp only [Except.ok.injEq] at hx
        subst hx
        show normalize_amazon_india (p :: (rest ++ ([] : RawRecord) :: ys)) = _
        rw [normalize_amazon_cons, hp, ih a2 hrest]
        simp

/-- C2 counterexample: a batch whose first record carries an ill-typed
location (the integer 5).  `loc.lower()` raises AttributeError, the whole
batch aborts, and the well-formed India record behind it is lost — refuting
"each normalizer raises no exception" and "all remaining records of the
batch are still normalized". -/
theorem norm_netflix_illtyped_aborts_batch :
    norm_netflix [badNetflixRecord, goodNetflixRecord] =
      Except.error "AttributeError: object has no attribute lower" ∧
    (∃ j, norm_netflix [goodNetflixRecord] = Except.ok [j]) ∧
    WTnf goodNetflixRecord = true :=
  ⟨rfl, ⟨_, rfl⟩, rfl⟩

/-- C2 (corrected): on batches whose records carry values of the shapes the
code expects, no normalizer raises; a record missing all fields is skipped
by the India filter in the Netflix and Workday normalizers and is
normalized into a default posting by the Amazon normalizer, in every case
leaving the rest of the batch intact.  (An ill-typed field value, by
contrast, raises and aborts the whole batch: see the counterexample.) -/
theorem normalizers_malformed_tolerance_amended :
    (∀ rows : List RawRecord, (∀ r ∈ rows, WTnf r = true) →
      ∃ out, norm_netflix rows = Except.ok out) ∧
    (∀ (rows : List RawRecord) (hint : String), (∀ r ∈ rows, WTwd r = true) →
      ∃ out, norm_workday rows hint = Except.ok out) ∧
    (∀ rows : List RawRecord, (∀ r ∈ rows, WTamz r = true) →
      ∃ out, normalize_amazon_india rows = Except.ok out) ∧
    (∀ xs ys : List RawRecord,
      norm_netflix (xs ++ ([] : RawRecord) :: ys) = norm_netflix (xs ++ ys)) ∧
    (∀ (xs ys : List RawRecord) (hint : String),
      norm_workday (xs ++ ([] : RawRecord) :: ys) hint =
        norm_workday (xs ++ ys) hint) ∧
    (∀ (xs ys : List RawRecord) (a b : List JobPosting),
      normalize_amazon_india xs = Except.ok a →
      normalize_amazon_india ys = Except.ok b →
      normalize_amazon_india (xs ++ ([] : RawRecord) :: ys) =
        Except.ok (a ++ ({ source := "amazon", company := "Amazon",
                           title := "", job_id := some "",
                           description_snippet := some "" } : JobPosting) :: b)) :=
  ⟨norm_netflix_wt, norm_workday_wt, normalize_amazon_wt,
   norm_netflix_insert_empty, norm_workday_insert_empty,
   normalize_amazon_insert_empty⟩

/-- Witness for the amended C2: a well-formed batch normalizes without
error, and inserting an empty record leaves the batch's result unchanged. -/
theorem normalizers_malformed_tolerance_amended_witness :
    (∃ out, norm_netflix [goodNetflixRecord] = Except.ok out) ∧
    norm_netflix ([goodNetflixRecord] ++ ([] : RawRecord) :: []) =
      norm_netflix ([goodNetflixRecord] ++ []) :=
  ⟨normalizers_malformed_tolerance_amended.1 [goodNetflixRecord] (by decide),
   normalizers_malformed_tolerance_amended.2.2.2.1 [goodNetflixRecord] []⟩

/-- C4 (confirmed): locale filter of the Workday and Netflix normalizers.
For a well-shaped record, a posting is produced iff the record's location
string (for Workday: `locationsText`, else the joined city list) contains
"india" case-insensitively; an absent or empty location is always
dropped. -/
theorem locale_filter_correctness :
    (∀ r : RawRecord, WTnf r = true →
      ((∃ j, norm_netflix [r] = Except.ok [j]) ↔
        (∃ s, pyOrV (dget r "location") (Val.str "") = Val.str s ∧
          pyInSub "india" (pyLower s) = true))) ∧
    (∀ (r : RawRecord) (hint : String), WTwd r = true →
      ((∃ j, norm_workday [r] hint = Except.ok [j]) ↔
        (∃ s, wdLocE r = Except.ok (Val.str s) ∧
          pyInSub "india" (pyLower s) = true))) ∧
    (∀ r : RawRecord,
      dget r "location" = Val.none ∨ dget r "location" = Val.str "" →
      norm_netflix [r] = Except.ok []) ∧
    (∀ (r : RawRecord) (hint : String),
      wdLocE r = Except.ok Val.none ∨ wdLocE r = Except.ok (Val.str "") →
      norm_workday [r] hint = Except.ok []) := by
  refine ⟨?_, ?_, ?_, ?_⟩
  · intro r hwt
    have h1 : isNoneOrStr (dget r "location") = true := by
      unfold WTnf at hwt
      simp only [Bool.and_eq_true] at hwt
      exact hwt.1.1
    obtain ⟨s, hloc⟩ := nfLoc_wt r h1
    constructor
    · rintro ⟨j, hj⟩
      by_cases hin : pyInSub "india" (pyLower s) = true
      · exact ⟨s, hloc, hin⟩
      · have hskip := nfStep_skip r s hloc (by simpa using hin)
        have hempty : norm_netflix [r] = Except.ok [] := by
          rw [norm_netflix_singleton, hskip]
        rw [hempty] at hj
        simp at hj
    · rintro ⟨s2, hloc2, hin2⟩
      rw [hloc] at hloc2
      injection hloc2 with hss
      subst hss
      obtain ⟨j, hj, _⟩ := nfStep_eval r s hwt hloc hin2
      refine ⟨j, ?_⟩
      rw [norm_netflix_singleton, hj]
  · intro r hint hwt
    constructor
    · rintro ⟨j, hj⟩
      rcases wdLocE_wt r hwt with hl | ⟨s, hs, hl⟩
      · have hskip := wdStep_skip_none r hint hl
        have hempty : norm_workday [r] hint = Except.ok [] := by
          rw [norm_workday_singleton, hskip]
        rw [hempty] at hj
        simp at hj
      · by_cases hin : pyInSub "india" (pyLower s) = true
        · exact ⟨s, hl, hin⟩
        · have hskip := wdStep_skip_str r hint s hl (by simpa using hin)
          have hempty : norm_workday [r] hint = Except.ok [] := by
            rw [norm_workday_singleton, hskip]
          rw [hempty] at hj
          simp at hj
    · rintro ⟨s, hl, hin⟩
      have hs : s ≠ "" := by
        intro h0
        subst h0
        exact absurd hin (by decide)
      obtain ⟨j, hj, _⟩ := wdStep_eval r hint s hwt hl hs hin
      refine ⟨j, ?_⟩
      rw [norm_workday_singleton, hj]
  · intro r hl
    have hloc : pyOrV (dget r "location") (Val.str "") = Val.str "" := by
      rcases hl with h0 | h0 <;> rw [pyOrV, h0] <;> rfl
    have hskip := nfStep_skip r "" hloc (by decide)
    rw [norm_netflix_singleton, hskip]
  · intro r hint hl
    rcases hl with h0 | h0
    · rw [norm_workday_singleton, wdStep_skip_none r hint h0]
    · rw [norm_workday_singleton, wdStep_skip_str r hint "" h0 (by decide)]

/-- Witness for C4: the India-located Netflix record is retained. -/
theorem locale_filter_correctness_witness :
    ∃ j, norm_netflix [goodNetflixRecord] = Except.ok [j] :=
  (locale_filter_correctness.1 goodNetflixRecord (by decide)).mpr
    ⟨"Bengaluru, India", rfl, by decide⟩

/-- C6 counterexample: the Amazon normalizer turns an empty raw record into
a posting whose title is the empty string (title falls back to ""), so the
"title is always a non-empty string" part of the invariant fails. -/
theorem jobposting_empty_title_counterexample :
    normalize_amazon_india [[]] =
      Except.ok [({ source := "amazon", company := "Amazon", title := "",
                    job_id := some "",
                    description_snippet := some "" } : JobPosting)] ∧
    ({ source := "amazon", company := "Amazon", title := "",
       job_id := some "",
       description_snippet := some "" } : JobPosting).title = "" :=
  ⟨rfl, rfl⟩

/-- C6 (corrected): every posting produced by a normalizer has the fixed
non-empty source of its normalizer; company is non-empty for Amazon
("Amazon" fallback, or a truthy hence non-empty string) and Netflix
(constant "Netflix"), and for Workday equals the capitalized company hint,
which is non-empty whenever the hint is; the title, however, may be the
empty string when the raw record lacks title fields. -/
theorem jobposting_required_fields_amended :
    (∀ (rows : List RawRecord) (out : List JobPosting),
      normalize_amazon_india rows = Except.ok out →
      ∀ j ∈ out, j.source = "amazon" ∧ j.company ≠ "") ∧
    (∀ (rows : List RawRecord) (out : List JobPosting),
      norm_netflix rows = Except.ok out →
      ∀ j ∈ out, j.source = "netflix" ∧ j.company = "Netflix") ∧
    (∀ (rows : List RawRecord) (hint : String) (out : List JobPosting),
      norm_workday rows hint = Except.ok out →
      ∀ j ∈ out, j.source = "workday" ∧ j.company = pyCapitalize hint) ∧
    (∀ hint : String, hint ≠ "" → pyCapitalize hint ≠ "") :=
  ⟨normalize_amazon_fields, norm_netflix_fields, norm_workday_fields,
   pyCapitalize_ne_empty⟩

/-- Witness for the amended C6 at the empty Amazon record. -/
theorem jobposting_required_fields_amended_witness :
    ∀ j ∈ [({ source := "amazon", company := "Amazon", title := "",
              job_id := some "",
              description_snippet := some "" } : JobPosting)],
      j.source = "amazon" ∧ j.company ≠ "" :=
  jobposting_required_fields_amended.1 [[]] _ rfl

/-- C8 (confirmed): Workday URL construction.  For a well-shaped, retained
record whose externalPath starts with "/", the produced posting's url is
the path prefixed with "https://<company-hint>.myworkdayjobs.com"; in
particular a record with externalPath "/job/123" and hint "pwc" yields
url "https://pwc.myworkdayjobs.com/job/123". -/
theorem workday_url_construction :
    (∀ (r : RawRecord) (hint s p : String), WTwd r = true →
      wdLocE r = Except.ok (Val.str s) →
      pyInSub "india" (pyLower s) = true →
      dget r "externalPath" = Val.str p →
      strStartsWith p "/" = true →
      ∃ j, wdStep r hint = Except.ok (some j) ∧
        j.url = some ("https://" ++ hint ++ ".myworkdayjobs.com" ++ p)) ∧
    (∃ j, norm_workday [goodWorkdayRecord] "pwc" = Except.ok [j] ∧
      j.url = some "https://pwc.myworkdayjobs.com/job/123") := by
  constructor
  · intro r hint s p hwt hl hin hp hsw
    have hs : s ≠ "" := by
      intro h0
      subst h0
      exact absurd hin (by decide)
    obtain ⟨j, hj, _, _, _, hurl⟩ := wdStep_eval r hint s hwt hl hs hin
    exact ⟨j, hj, hurl p hp hsw⟩
  · exact ⟨_, rfl, rfl⟩

/-- Witness for C8 at the concrete Workday record. -/
theorem workday_url_construction_witness :
    ∃ j, wdStep goodWorkdayRecord "pwc" = Except.ok (some j) ∧
      j.url = some ("https://" ++ "pwc" ++ ".myworkdayjobs.com" ++ "/job/123") :=
  workday_url_construction.1 goodWorkdayRecord "pwc" "Bengaluru, India"
    "/job/123" (by decide) rfl (by decide) rfl (by decide)
